import Mathlib

set_option linter.unusedVariables false

/-!
Verification of the emer/empi MPI wrapper library: a shallow embedding of its
communicator operations, allocation helper, tensor gather helpers, rank-gated
printing, and the MPI-distributed FixedTable environment, with theorems about
the behaviour of each.

Conventions of the embedding:
* Go slices are Lean lists; Go `int` values that can go negative are `ℤ`,
  sizes/indexes that stay non-negative are `ℕ`.
* Side effects are made explicit: a function that writes a buffer returns the
  buffer, a function that may log returns a Bool flag, printing returns an
  `Option String` (the text written, or `none`).
* The global package state consulted by a function (`mpi.WorldSize()`,
  `mpi.WorldRank()`, `LogErrors`, `PrintAllProcs`, the `math/rand` generator)
  is passed as an explicit argument.
* The external MPI transport (cgo calls) is a parameter; the stand-in
  (non-mpi build) bodies are embedded directly since they are pure Go.
-/

namespace Empi

/-- MPIErr is an error value as built by the wrapper's `Error` function:
the raw transport status code, the call-site context (operation name), and
the transport's error string for that code (`MPI_Error_string`). -/
structure MPIErr where
  code : ℤ
  ctxt : String
  msg : String
  deriving DecidableEq

/-- MPI_SUCCESS status code (0 in every MPI implementation; the wrapper
compares the raw status against it). -/
def MPI_SUCCESS : ℤ := 0

/-- Error, from the cgo binding (unnamed part_000, lines 39-54): returns a nil
error exactly when the status code `ec` is `MPI_SUCCESS`; otherwise it asks the
transport for the message text (`MPI_Error_string`, modelled by the `errString`
argument), builds the error carrying the code, context and message, and logs it
when the package-global `LogErrors` toggle is set.  The result pair is
(the error value returned to the caller, whether the error was logged). -/
def Error (errString : ℤ → String) (logErrors : Bool) (ec : ℤ) (ctxt : String) :
    Option MPIErr × Bool :=
  if ec = MPI_SUCCESS then (none, false)
  else
    let err : MPIErr := ⟨ec, ctxt, errString ec⟩
    (some err, logErrors)

/-- Op is the aggregation operation enum of the wrapper: Sum, Max, Min, Prod
(each mapped onto the transport's native reduction code). -/
inductive Op
  | OpSum
  | OpMax
  | OpMin
  | OpProd
  deriving DecidableEq

/-- AllocResult is what `AllocN` produces: the half-open range `[st, en)` for
the current proc, whether a non-nil error was returned, and whether the error
was logged. -/
structure AllocResult where
  st : ℕ
  en : ℕ
  err : Bool
  logged : Bool
  deriving DecidableEq

/-- AllocN, from src/empi/alloc.go (lines 16-26).  `nproc` is
`mpi.WorldSize()` and `rank` is `mpi.WorldRank()`.  When `n` is not an even
multiple of `nproc` the function creates an error and immediately
`log.Println`s it — this logging is unconditional: `AllocN` never consults the
mpi package's `LogErrors` toggle, which is passed here only so that theorems
can state that independence.  In every case it then returns the floor-divided
range `st = (n/nproc)*rank`, `en = st + n/nproc`. -/
def AllocN (logErrors : Bool) (nproc rank n : ℕ) : AllocResult :=
  let bad := n % nproc != 0
  let pt := n / nproc
  let st := pt * rank
  { st := st, en := st + pt, err := bad, logged := bad }

/-- Printf, from src/mpi/printf.go (lines 14-22): does nothing unless this is
rank 0 or the `PrintAllProcs` override is set; a rank greater than 0 that does
print gets the "P%d: " rank marker prepended; rank 0 never does.  The result is
the text written, or `none` when nothing was printed. -/
def Printf (printAllProcs : Bool) (worldRank : ℕ) (fs : String) : Option String :=
  if !printAllProcs && decide (0 < worldRank) then none
  else
    let fs := if 0 < worldRank then "P" ++ toString worldRank ++ ": " ++ fs else fs
    some fs

/-- Println, from src/mpi/printf.go (lines 33-41): same gating and rank-marker
behaviour as `Printf`, for a single-string line. -/
def Println (printAllProcs : Bool) (worldRank : ℕ) (fs : String) : Option String :=
  if !printAllProcs && decide (0 < worldRank) then none
  else
    let fs := if 0 < worldRank then "P" ++ toString worldRank ++ ": " ++ fs else fs
    some fs

/-! ### Stand-in (non-mpi build) communicator

The `//go:build !mpi` template (unnamed part_002) generates, for every element
type, methods whose bodies are exactly `return nil`: no buffer is read or
written.  Each embedding below returns the buffer(s) the operation could have
written together with the returned error, so that theorems can speak about
what happened to `dest`.  The element type is a parameter, as the template
ranges over all supported Go element types. -/

/-- Dummy.Send: stand-in `Comm.Send*(toProc, tag, vals)` — body `return nil`. -/
def Dummy.Send {α : Type} (toProc tag : ℤ) (vals : List α) : List α × Option MPIErr :=
  (vals, none)

/-- Dummy.Recv: stand-in `Comm.Recv*(fmProc, tag, vals)` — body `return nil`. -/
def Dummy.Recv {α : Type} (fmProc tag : ℤ) (vals : List α) : List α × Option MPIErr :=
  (vals, none)

/-- Dummy.Bcast: stand-in `Comm.Bcast*(fmProc, vals)` — body `return nil`; the
single `vals` buffer is left untouched. -/
def Dummy.Bcast {α : Type} (fmProc : ℤ) (vals : List α) : List α × Option MPIErr :=
  (vals, none)

/-- Dummy.Reduce: stand-in `Comm.Reduce*(toProc, op, dest, orig)` — body
`return nil`; in particular `dest` is not written. -/
def Dummy.Reduce {α : Type} (toProc : ℤ) (op : Op) (dest orig : List α) :
    List α × Option MPIErr :=
  (dest, none)

/-- Dummy.AllReduce: stand-in `Comm.AllReduce*(op, dest, orig)` — body
`return nil`; `dest` is not written. -/
def Dummy.AllReduce {α : Type} (op : Op) (dest orig : List α) : List α × Option MPIErr :=
  (dest, none)

/-- Dummy.Gather: stand-in `Comm.Gather*(toProc, dest, orig)` — body
`return nil`; `dest` is not written. -/
def Dummy.Gather {α : Type} (toProc : ℤ) (dest orig : List α) : List α × Option MPIErr :=
  (dest, none)

/-- Dummy.AllGather: stand-in `Comm.AllGather*(dest, orig)` — body
`return nil`; `dest` is not written. -/
def Dummy.AllGather {α : Type} (dest orig : List α) : List α × Option MPIErr :=
  (dest, none)

/-- Dummy.Scatter: stand-in `Comm.Scatter*(fmProc, dest, orig)` — body
`return nil`; `dest` is not written. -/
def Dummy.Scatter {α : Type} (fmProc : ℤ) (dest orig : List α) : List α × Option MPIErr :=
  (dest, none)

/-- Modelled from the spec: the stand-in build's `Comm.Barrier` (its
non-generated dummy body is not among the repository's staged files) —
"Barrier/Abort succeed trivially", so it returns a nil error. -/
def Dummy.Barrier : Option MPIErr := none

/-- Modelled from the spec: the stand-in build's `Comm.Abort` (its
non-generated dummy body is not among the repository's staged files) —
"Barrier/Abort succeed trivially", so it returns a nil error. -/
def Dummy.Abort : Option MPIErr := none

/-! ### Active (transport-backed) communicator, unnamed part_000

Each verb takes the address of element 0 of every slice argument
(`unsafe.Pointer(&vals[0])`) before handing the buffer to the transport.  The
embedding records the call the transport would receive; an empty slice makes
the `[0]` index out of bounds (a Go runtime panic), modelled as `none`.
Element values (float64 in the source) are never inspected by the wrapper, so
the element type is a parameter. -/

/-- TransportCall records one buffer argument as passed to the transport:
the dereferenced first element `&buf[0]`, the element count `len(buf)`, and
the peer/root rank of the call. -/
structure TransportCall (α : Type) where
  buf0 : α
  count : ℕ
  peer : ℤ

/-- ReduceCall records the two buffers of `MPI_Reduce`: the dereferenced first
elements of `orig` (send side) and `dest` (receive side), the element count
`len(dest)`, the root rank and the operation. -/
structure ReduceCall (α : Type) where
  sendbuf0 : α
  recvbuf0 : α
  count : ℕ
  root : ℤ
  op : Op

/-- Comm.Send64, active mode (part_000 lines 173-176): dereferences
`&vals[0]`, then calls `MPI_Send(buf, len(vals), FLOAT64, toProc, ...)`. -/
def Comm.Send64 {α : Type} (toProc : ℤ) (vals : List α) : Option (TransportCall α) :=
  match vals with
  | [] => none
  | v :: rest => some ⟨v, (v :: rest).length, toProc⟩

/-- Comm.Recv64, active mode (part_000 lines 178-181): dereferences
`&vals[0]`, then calls `MPI_Recv(buf, len(vals), FLOAT64, fmProc, ...)`. -/
def Comm.Recv64 {α : Type} (vals : List α) (fmProc : ℤ) : Option (TransportCall α) :=
  match vals with
  | [] => none
  | v :: rest => some ⟨v, (v :: rest).length, fmProc⟩

/-- Comm.BcastFrom64, active mode (part_000 lines 224-227): dereferences
`&x[0]`, then calls `MPI_Bcast(buf, len(x), FLOAT64, from, ...)`. -/
def Comm.BcastFrom64 {α : Type} (fm : ℤ) (x : List α) : Option (TransportCall α) :=
  match x with
  | [] => none
  | v :: rest => some ⟨v, (v :: rest).length, fm⟩

/-- Comm.Reduce64, active mode (part_000 lines 247-251): dereferences
`&orig[0]` and `&dest[0]`, then calls
`MPI_Reduce(sendbuf, recvbuf, len(dest), FLOAT64, op, toProc, ...)`. -/
def Comm.Reduce64 {α : Type} (toProc : ℤ) (op : Op) (dest orig : List α) :
    Option (ReduceCall α) :=
  match orig, dest with
  | o :: _, d :: ds => some ⟨o, d, (d :: ds).length, toProc, op⟩
  | _, _ => none

/-! ### Tensor gather helpers, src/empi/tensor.go

The etensor data model is reduced to what the gather helpers use: an element
kind, a row count, a fixed per-row cell count, and the flat `Values` slice.
Numeric element payloads are never interpreted by the helpers, so one integer
payload type stands for all of the numeric kinds, each of which gets the same
generated `AllGather` call; the AllGather primitive itself is a parameter
(either the active transport or the stand-in `Dummy.AllGather`). -/

/-- Etype is the etensor element kind enumeration, as dispatched on by
`GatherTensorRows`. -/
inductive Etype
  | BOOL
  | UINT8
  | INT8
  | UINT16
  | INT16
  | UINT32
  | INT32
  | UINT64
  | INT64
  | INT
  | FLOAT32
  | FLOAT64
  deriving DecidableEq

/-- Tensor models an etensor with a numeric (or bool) element kind:
`rows * cellSize` is the nominal length of the flat `values` slice. -/
structure Tensor where
  kind : Etype
  rows : ℕ
  cellSize : ℕ
  values : List ℤ
  deriving DecidableEq

/-- Tensor.SetNumRows: an etensor's row resize keeps the existing element data,
truncating or zero-extending the flat slice to the new `rows * cellSize`
length. -/
def Tensor.SetNumRows (t : Tensor) (r : ℕ) : Tensor :=
  { t with
    rows := r
    values := t.values.take (r * t.cellSize)
                ++ List.replicate (r * t.cellSize - t.values.length) 0 }

/-- GatherTensorRows, from src/empi/tensor.go (lines 17-81), for the
non-string kinds (a STRING source is dispatched on the first line to
`GatherTensorRowsString`, embedded separately below over the string tensor
model).  `np` is `mpi.WorldSize()`; `allGather` is the communicator's
per-kind `AllGather*` primitive, receiving `(dest.Values, src.Values)` and
returning the written dest buffer and the error.  The switch on the source's
kind has an empty `// todo` body for BOOL — no transfer happens and `err`
stays nil — and calls the matching `AllGather*` for every other kind. -/
def GatherTensorRows (np : ℕ)
    (allGather : List ℤ → List ℤ → List ℤ × Option MPIErr)
    (dest src : Tensor) : Tensor × Option MPIErr :=
  let sr := src.rows
  let dr := dest.rows
  let dl := np * sr
  let dest := if dr ≠ dl then dest.SetNumRows dl else dest
  match src.kind with
  | Etype.BOOL => (dest, none)
  | _ =>
    let r := allGather dest.values src.values
    ({ dest with values := r.1 }, r.2)

/-- StringTensor models an etensor.String: each element is a Go string,
kept here as its byte sequence. -/
structure StringTensor where
  rows : ℕ
  cellSize : ℕ
  values : List (List ℕ)
  deriving DecidableEq

/-- StringTensor.SetNumRows: row resize for a string tensor; new elements are
empty strings. -/
def StringTensor.SetNumRows (t : StringTensor) (r : ℕ) : StringTensor :=
  { t with
    rows := r
    values := t.values.take (r * t.cellSize)
                ++ List.replicate (r * t.cellSize - t.values.length) [] }

/-- maxInts is the `ints.MaxInt` fold of GatherTensorRowsString: the maximum
of a list of lengths, starting from 0. -/
def maxInts (ls : List ℕ) : ℕ := ls.foldl max 0

/-- packPadded is the packing loop of GatherTensorRowsString: `sdt` is a zero
byte buffer of length `len(vs) * m` and string `i` is copied to offset `i*m`
(`copy(sdt[idx:idx+l], s); idx += mxlen`).  Since every string's length is at
most `m` (`m` is the maximum of the gathered lengths), the buffer is exactly
the concatenation of each string zero-padded to `m` bytes. -/
def packPadded (vs : List (List ℕ)) (m : ℕ) : List ℕ :=
  match vs with
  | [] => []
  | s :: rest => (s ++ List.replicate (m - s.length) 0) ++ packPadded rest m

/-- unpackStrings is the unpacking loop of GatherTensorRowsString: element `i`
becomes the `dln[i]`-byte slice `ddt[idx : idx+l]`, with `idx` advancing by
`mxlen` per element (`s := string(ddt[idx : idx+l]); idx += mxlen`). -/
def unpackStrings (ddt : List ℕ) (dln : List ℕ) (m : ℕ) : List (List ℕ) :=
  match dln with
  | [] => []
  | l :: rest => ddt.take l :: unpackStrings (ddt.drop m) rest m

/-- GatherTensorRowsString, from src/empi/tensor.go (lines 87-131): the
two-phase variable-length string gather.  Phase 1 all-gathers the per-element
byte lengths (`AllGatherInt`, into a zeroed `dln` of `dest`'s size) and takes
their maximum `mxlen`; when `mxlen == 0` nothing is transferred and the
function returns nil with `dest`'s strings untouched.  Phase 2 packs every
local string zero-padded to `mxlen` bytes, all-gathers the padded payload
(`AllGatherU8`), slices the result back into `dest`'s elements using the
gathered lengths, and returns the payload gather's error. -/
def GatherTensorRowsString (np : ℕ)
    (allGatherInt : List ℕ → List ℕ → List ℕ × Option MPIErr)
    (allGatherU8 : List ℕ → List ℕ → List ℕ × Option MPIErr)
    (dest src : StringTensor) : StringTensor × Option MPIErr :=
  let sr := src.rows
  let dr := dest.rows
  let dl := np * sr
  let dest := if dr ≠ dl then dest.SetNumRows dl else dest
  let dsz := dest.values.length
  let sln := src.values.map List.length
  let p := allGatherInt (List.replicate dsz 0) sln
  match p.2 with
  | some e => (dest, some e)
  | none =>
    let dln := p.1
    let mxlen := maxInts dln
    if mxlen = 0 then (dest, none)
    else
      let sdt := packPadded src.values mxlen
      let q := allGatherU8 (List.replicate (dsz * mxlen) 0) sdt
      ({ dest with values := unpackStrings q.1 dln mxlen }, q.2)

/-- AllGatherOne is written from the spec's words, for comparison with the
stand-in implementation: the §4.2 `AllGather` post-condition specialised to
`size == 1` ("dest receives the concatenation of every member's src" — with
exactly one member, `dest` becomes a copy of `src`), with a nil error. -/
def AllGatherOne {α : Type} (dest orig : List α) : List α × Option MPIErr :=
  (orig, none)

/-! ### The MPI FixedTable environment, src/empi/fixed.go

Only the fields the trial-partition logic touches are modelled.  The
`math/rand` package generator behind `rand.Perm` is abstracted as a state type
`σ` with a `randPerm : σ → ℕ → List ℕ × σ` function; `erand.PermuteInts`
likewise as `permuteInts`.  The `env.Ctr` counters of the external
emer/emergent env package are flattened into the `TrialCur`/`TrialMax`
fields. -/

/-- FixedTable models the MPI-enabled fixed table environment: the
`Sequential` toggle, the permuted `Order`, the per-rank trial sub-range
`[TrialSt, TrialEd)`, the Trial counter's current value and max, the Run
counter's current value, and the table's row count (`ft.Table.Len()`). -/
structure FixedTable where
  Sequential : Bool
  Order : List ℕ
  TrialSt : ℕ
  TrialEd : ℕ
  TrialCur : ℤ
  TrialMax : ℤ
  RunCur : ℤ
  tableLen : ℕ
  deriving DecidableEq

/-- FixedTable.NewOrder, from src/empi/fixed.go (lines 79-92): draws a fresh
`rand.Perm(np)` into `Order` unconditionally (before and regardless of any
check of `Sequential`, so that random-number usage is identical either way),
then computes this rank's sub-range: `pt = np / nproc`, `TrialSt = pt * rank`,
`TrialEd = TrialSt + pt`, and `Trial.Max = TrialEd`.  (When `np % nproc ≠ 0`
the function also logs a complaint; the partition is computed the same way
regardless.)  Returns the updated table and generator state. -/
def FixedTable.NewOrder {σ : Type} (randPerm : σ → ℕ → List ℕ × σ)
    (nproc rank : ℕ) (ft : FixedTable) (g : σ) : FixedTable × σ :=
  let np := ft.tableLen
  let p := randPerm g np
  let pt := np / nproc
  let st := pt * rank
  ({ ft with
      Order := p.1
      TrialSt := st
      TrialEd := st + pt
      TrialMax := ((st + pt : ℕ) : ℤ) }, p.2)

/-- FixedTable.Init, from src/empi/fixed.go (lines 60-76): initialises the
counters (the external `env.Ctr.Init` resets `Cur` to 0), records the run,
calls `NewOrder`, and finally sets `Trial.Cur = TrialSt - 1` so that the first
`Step()` lands on `TrialSt`.  The Name/Group column defaults and counter
scales have no bearing on the trial indices and are not modelled. -/
def FixedTable.Init {σ : Type} (randPerm : σ → ℕ → List ℕ × σ)
    (nproc rank : ℕ) (run : ℤ) (ft : FixedTable) (g : σ) : FixedTable × σ :=
  let ft := { ft with RunCur := run, TrialCur := 0 }
  let q := FixedTable.NewOrder randPerm nproc rank ft g
  ({ q.1 with TrialCur := (q.1.TrialSt : ℤ) - 1 }, q.2)

/-- CtrIncr is modelled from the documented behaviour of the external
`env.Ctr.Incr` counter of the emer/emergent env package (not part of this
repository): it increments `Cur` and, when `Max > 0` and the new value reaches
`Max`, wraps `Cur` to 0 and reports the wrap. -/
def CtrIncr (cur mx : ℤ) : ℤ × Bool :=
  let c := cur + 1
  if 0 < mx ∧ mx ≤ c then (0, true) else (c, false)

/-- FixedTable.Step, from src/empi/fixed.go (lines 136-146): increments the
Trial counter; on a wrap it re-permutes `Order` (`PermuteOrder`, i.e. the
external `erand.PermuteInts`, abstracted as `permuteInts`) and increments the
Epoch counter (whose bookkeeping no claim concerns and which is not
modelled).  `SetTrialName`/`SetGroupName` do not touch the trial indices. -/
def FixedTable.Step {σ : Type} (permuteInts : σ → List ℕ → List ℕ × σ)
    (ft : FixedTable) (g : σ) : FixedTable × σ :=
  let r := CtrIncr ft.TrialCur ft.TrialMax
  if r.2 then
    let p := permuteInts g ft.Order
    ({ ft with TrialCur := r.1, Order := p.1 }, p.2)
  else
    ({ ft with TrialCur := r.1 }, g)

/-! ## Theorems -/

/-- Helper: a point below `pt * nproc` lies in exactly one of the `nproc`
consecutive blocks of width `pt`. -/
theorem block_cover_unique (pt nproc k : ℕ) (hpt : 0 < pt) (hk : k < pt * nproc) :
    ∃! r, r < nproc ∧ pt * r ≤ k ∧ k < pt * r + pt := by
  have hdm : pt * (k / pt) + k % pt = k := Nat.div_add_mod k pt
  have hmod : k % pt < pt := Nat.mod_lt k hpt
  refine ⟨k / pt, ⟨?_, ?_, ?_⟩, ?_⟩
  · exact (Nat.div_lt_iff_lt_mul hpt).mpr (by rw [Nat.mul_comm]; exact hk)
  · exact Nat.le.intro hdm
  · calc k = pt * (k / pt) + k % pt := hdm.symm
      _ < pt * (k / pt) + pt := Nat.add_lt_add_left hmod _
  · rintro y ⟨hy, h1, h2⟩
    have hlo : y * pt ≤ k := by rw [Nat.mul_comm]; exact h1
    have hhi : k < (y + 1) * pt := by
      rw [Nat.succ_mul, Nat.mul_comm y pt]; exact h2
    exact (Nat.div_eq_of_lt_le hlo hhi).symm

/-- C2: for every n and size with n mod size == 0, the AllocN half-open ranges
across ranks 0..size-1 exactly cover [0, n) with no gaps and no overlaps, each
range having length n/size and rank r starting at r*(n/size). -/
theorem allocN_partition (nproc n : ℕ) (hproc : 0 < nproc) (hdvd : n % nproc = 0) :
    (∀ k, k < n → ∃! r, r < nproc ∧
        (AllocN true nproc r n).st ≤ k ∧ k < (AllocN true nproc r n).en) ∧
    (∀ r, (AllocN true nproc r n).st = r * (n / nproc)) ∧
    (∀ r, (AllocN true nproc r n).en = r * (n / nproc) + n / nproc) := by
  have hn : n / nproc * nproc = n := Nat.div_mul_cancel (Nat.dvd_of_mod_eq_zero hdvd)
  refine ⟨?_, fun r => Nat.mul_comm _ r, fun r => ?_⟩
  · intro k hk
    have hpt : 0 < n / nproc := by
      rcases Nat.eq_zero_or_pos (n / nproc) with h0 | h1
      · rw [h0] at hn; omega
      · exact h1
    have hk' : k < n / nproc * nproc := by rw [hn]; exact hk
    exact block_cover_unique (n / nproc) nproc k hpt hk'
  · show n / nproc * r + n / nproc = r * (n / nproc) + n / nproc
    rw [Nat.mul_comm]

/-- Witness for C2 at nproc = 2, n = 6: the two ranges [0,3) and [3,6)
partition [0,6). -/
theorem allocN_partition_witness :
    (∀ k, k < 6 → ∃! r, r < 2 ∧
        (AllocN true 2 r 6).st ≤ k ∧ k < (AllocN true 2 r 6).en) ∧
    (∀ r, (AllocN true 2 r 6).st = r * (6 / 2)) ∧
    (∀ r, (AllocN true 2 r 6).en = r * (6 / 2) + 6 / 2) :=
  allocN_partition 2 6 (by decide) (by decide)

/-- C3: AllocN returns a non-nil error exactly when n mod size != 0; the error
is logged exactly when it is returned, independently of the mpi error-logging
toggle; and the best-effort floor-divided range st = (n/size)*rank,
en = st + n/size is returned in every case — at n = 7, size = 2 rank 0 gets
[0,3) and rank 1 gets [3,6), with the error returned and logged. -/
theorem allocN_err_logging (logErrors logErrors' : Bool) (nproc rank n : ℕ) :
    ((AllocN logErrors nproc rank n).err = (n % nproc != 0)) ∧
    ((AllocN logErrors nproc rank n).logged = (AllocN logErrors nproc rank n).err) ∧
    (AllocN logErrors nproc rank n = AllocN logErrors' nproc rank n) ∧
    ((AllocN logErrors nproc rank n).st = n / nproc * rank) ∧
    ((AllocN logErrors nproc rank n).en = n / nproc * rank + n / nproc) ∧
    AllocN logErrors 2 0 7 = ⟨0, 3, true, true⟩ ∧
    AllocN logErrors 2 1 7 = ⟨3, 6, true, true⟩ :=
  ⟨rfl, rfl, rfl, rfl, rfl, rfl, rfl⟩

/-- C7: the Error wrapper returns nil exactly when the status is MPI_SUCCESS;
for a nonzero status it returns the error carrying the numeric code, the
call-site operation name and the transport-provided message; it logs exactly
when the LogErrors toggle is on, and the returned error does not depend on the
toggle. -/
theorem error_wrapper_spec (errString : ℤ → String) (logErrors : Bool) (ec : ℤ)
    (ctxt : String) :
    ((Error errString logErrors ec ctxt).1 = none ↔ ec = MPI_SUCCESS) ∧
    ((Error errString logErrors ec ctxt).1
        = if ec = MPI_SUCCESS then none else some ⟨ec, ctxt, errString ec⟩) ∧
    ((Error errString logErrors ec ctxt).2
        = if ec = MPI_SUCCESS then false else logErrors) ∧
    ((Error errString true ec ctxt).1 = (Error errString false ec ctxt).1) := by
  unfold Error
  by_cases h : ec = MPI_SUCCESS <;> simp [h]

/-- C5 counterexample: with the PrintAllProcs override set, rank 0's line is
written without any rank marker — `Printf`/`Println` at rank 0 emit the text
as is, which differs from the "P0: "-marked form the claim requires. -/
theorem printf_rank0_cex :
    Printf true 0 "hello" = some "hello" ∧
    Println true 0 "hello" = some "hello" ∧
    ("hello" : String) ≠ "P0: " ++ "hello" := by
  refine ⟨rfl, rfl, ?_⟩
  decide

/-- C5 as amended: Printf and Println write only on rank 0 unless
PrintAllProcs is set, in which case every rank writes; a writing rank greater
than 0 gets the "P<rank>: " marker prepended, while rank 0's line is written
without a marker. -/
theorem printf_rank_gating (pa : Bool) (r : ℕ) (fs : String) :
    Printf pa 0 fs = some fs ∧
    Println pa 0 fs = some fs ∧
    Printf true (r + 1) fs = some ("P" ++ toString (r + 1) ++ ": " ++ fs) ∧
    Println true (r + 1) fs = some ("P" ++ toString (r + 1) ++ ": " ++ fs) ∧
    Printf false (r + 1) fs = none ∧
    Println false (r + 1) fs = none := by
  unfold Printf Println
  cases pa <;> simp

/-- C9: every embedded active-mode verb dereferences element 0 of each slice
argument before calling the transport, so the call is well defined exactly
when each buffer is non-empty: an empty vals/src/dest slice makes the access
out of bounds (no transport call is ever issued from it). -/
theorem active_nonempty_bounds {α : Type} (toProc fmProc fm : ℤ) (op : Op)
    (vals x dest orig : List α) :
    ((Comm.Send64 toProc vals).isSome ↔ vals ≠ []) ∧
    ((Comm.Recv64 vals fmProc).isSome ↔ vals ≠ []) ∧
    ((Comm.BcastFrom64 fm x).isSome ↔ x ≠ []) ∧
    ((Comm.Reduce64 toProc op dest orig).isSome ↔ (dest ≠ [] ∧ orig ≠ [])) := by
  refine ⟨?_, ?_, ?_, ?_⟩
  · cases vals <;> simp [Comm.Send64]
  · cases vals <;> simp [Comm.Recv64]
  · cases x <;> simp [Comm.BcastFrom64]
  · cases dest <;> cases orig <;> simp [Comm.Reduce64]

/-- C10: NewOrder regenerates Order through the random generator on every
call regardless of the Sequential flag — from the same generator state and
table, the resulting Order, TrialSt, TrialEd and the post-call generator state
are identical whether Sequential is true or false. -/
theorem newOrder_sequential_independent {σ : Type} (randPerm : σ → ℕ → List ℕ × σ)
    (nproc rank : ℕ) (ft : FixedTable) (g : σ) (s1 s2 : Bool) :
    (FixedTable.NewOrder randPerm nproc rank { ft with Sequential := s1 } g).1.Order
        = (randPerm g ft.tableLen).1 ∧
    (FixedTable.NewOrder randPerm nproc rank { ft with Sequential := s1 } g).1.Order
        = (FixedTable.NewOrder randPerm nproc rank { ft with Sequential := s2 } g).1.Order ∧
    (FixedTable.NewOrder randPerm nproc rank { ft with Sequential := s1 } g).1.TrialSt
        = (FixedTable.NewOrder randPerm nproc rank { ft with Sequential := s2 } g).1.TrialSt ∧
    (FixedTable.NewOrder randPerm nproc rank { ft with Sequential := s1 } g).1.TrialEd
        = (FixedTable.NewOrder randPerm nproc rank { ft with Sequential := s2 } g).1.TrialEd ∧
    (FixedTable.NewOrder randPerm nproc rank { ft with Sequential := s1 } g).2
        = (FixedTable.NewOrder randPerm nproc rank { ft with Sequential := s2 } g).2 :=
  ⟨rfl, rfl, rfl, rfl, rfl⟩

/-- C1 counterexample: in the stand-in build, Reduce (and AllGather) leave
dest exactly as it was — with dest = [0] and src = [1], dest after the call is
[0], not the src copy [1] the claim requires. -/
theorem dummy_reduce_not_identity_cex :
    (Dummy.Reduce 0 Op.OpSum [(0 : ℤ)] [(1 : ℤ)]).1 = [(0 : ℤ)] ∧
    (Dummy.AllGather [(0 : ℤ)] [(1 : ℤ)]).1 = [(0 : ℤ)] ∧
    ([(0 : ℤ)] : List ℤ) ≠ [(1 : ℤ)] :=
  ⟨rfl, rfl, by decide⟩

/-- C1 as amended: in the stand-in build every communicator operation returns
a nil error and moves no data — Send/Recv/Barrier/Abort succeed trivially and
Bcast leaves its single buffer unchanged (so the size == 1 Bcast
post-condition holds), while Reduce/AllReduce/Gather/AllGather/Scatter leave
dest untouched rather than copying src into it. -/
theorem dummy_collectives_noop {α : Type} (toProc tag fmProc : ℤ) (op : Op)
    (vals dest orig : List α) :
    Dummy.Send toProc tag vals = (vals, none) ∧
    Dummy.Recv fmProc tag vals = (vals, none) ∧
    Dummy.Bcast fmProc vals = (vals, none) ∧
    Dummy.Reduce toProc op dest orig = (dest, none) ∧
    Dummy.AllReduce op dest orig = (dest, none) ∧
    Dummy.Gather toProc dest orig = (dest, none) ∧
    Dummy.AllGather dest orig = (dest, none) ∧
    Dummy.Scatter fmProc dest orig = (dest, none) ∧
    Dummy.Barrier = none ∧
    Dummy.Abort = none :=
  ⟨rfl, rfl, rfl, rfl, rfl, rfl, rfl, rfl, rfl, rfl⟩

/-- C6: GatherTensorRows on a boolean source tensor performs no data transfer:
the error is nil (not an unsupported-kind error), dest's element values are
exactly its original values apart from the row-count resize, and the result
does not depend on the source's values or on the transport. -/
theorem gatherTensorRows_bool_skip (np : ℕ)
    (ag ag2 : List ℤ → List ℤ → List ℤ × Option MPIErr)
    (dk : Etype) (drows dcs : ℕ) (dvals : List ℤ)
    (srows scs : ℕ) (svals svals2 : List ℤ) :
    (GatherTensorRows np ag ⟨dk, drows, dcs, dvals⟩ ⟨Etype.BOOL, srows, scs, svals⟩).2
        = none ∧
    (GatherTensorRows np ag ⟨dk, drows, dcs, dvals⟩ ⟨Etype.BOOL, srows, scs, svals⟩).1.values
        = (if drows ≠ np * srows
            then dvals.take (np * srows * dcs)
                  ++ List.replicate (np * srows * dcs - dvals.length) 0
            else dvals) ∧
    GatherTensorRows np ag ⟨dk, drows, dcs, dvals⟩ ⟨Etype.BOOL, srows, scs, svals⟩
        = GatherTensorRows np ag2 ⟨dk, drows, dcs, dvals⟩ ⟨Etype.BOOL, srows, scs, svals2⟩ := by
  unfold GatherTensorRows Tensor.SetNumRows
  by_cases h : drows ≠ np * srows <;> simp [h, Nat.mul_assoc]

/-- Helper: when the incremented Trial counter stays below its max, Step just
advances the counter by one. -/
theorem step_no_wrap {σ : Type} (pInts : σ → List ℕ → List ℕ × σ) (ft : FixedTable)
    (g : σ) (h : ¬(0 < ft.TrialMax ∧ ft.TrialMax ≤ ft.TrialCur + 1)) :
    (FixedTable.Step pInts ft g).1.TrialCur = ft.TrialCur + 1 := by
  simp only [FixedTable.Step, CtrIncr, if_neg h]
  simp

/-- C8: Init/NewOrder assign rank r the contiguous permutation sub-range
TrialSt = r*(N/size), TrialEd = TrialSt + N/size, and set Trial.Cur to
TrialSt - 1 so the first Step lands on TrialSt; with 4 ranks and N = 8, rank 0
gets positions [0,2) and rank 3 gets [6,8). -/
theorem fixedTable_partition_spec {σ : Type} (randPerm : σ → ℕ → List ℕ × σ)
    (permuteInts : σ → List ℕ → List ℕ × σ)
    (nproc rank : ℕ) (run : ℤ) (ft : FixedTable) (g : σ) :
    ((FixedTable.Init randPerm nproc rank run ft g).1.TrialSt
        = ft.tableLen / nproc * rank) ∧
    ((FixedTable.Init randPerm nproc rank run ft g).1.TrialEd
        = ft.tableLen / nproc * rank + ft.tableLen / nproc) ∧
    ((FixedTable.Init randPerm nproc rank run ft g).1.TrialCur
        = ((FixedTable.Init randPerm nproc rank run ft g).1.TrialSt : ℤ) - 1) ∧
    (0 < ft.tableLen / nproc →
      (FixedTable.Step permuteInts (FixedTable.Init randPerm nproc rank run ft g).1
          (FixedTable.Init randPerm nproc rank run ft g).2).1.TrialCur
        = ((FixedTable.Init randPerm nproc rank run ft g).1.TrialSt : ℤ)) ∧
    ((FixedTable.Init (fun (u : Unit) n => (List.range n, u)) 4 0 0
        ⟨false, [], 0, 0, 0, 0, 0, 8⟩ ()).1.TrialSt = 0) ∧
    ((FixedTable.Init (fun (u : Unit) n => (List.range n, u)) 4 0 0
        ⟨false, [], 0, 0, 0, 0, 0, 8⟩ ()).1.TrialEd = 2) ∧
    ((FixedTable.Init (fun (u : Unit) n => (List.range n, u)) 4 3 0
        ⟨false, [], 0, 0, 0, 0, 0, 8⟩ ()).1.TrialSt = 6) ∧
    ((FixedTable.Init (fun (u : Unit) n => (List.range n, u)) 4 3 0
        ⟨false, [], 0, 0, 0, 0, 0, 8⟩ ()).1.TrialEd = 8) := by
  refine ⟨rfl, rfl, rfl, ?_, rfl, rfl, rfl, rfl⟩
  intro hpt
  have hmax : (FixedTable.Init randPerm nproc rank run ft g).1.TrialMax
      = ((ft.tableLen / nproc * rank + ft.tableLen / nproc : ℕ) : ℤ) := rfl
  have hcur : (FixedTable.Init randPerm nproc rank run ft g).1.TrialCur
      = ((ft.tableLen / nproc * rank : ℕ) : ℤ) - 1 := rfl
  have hst : ((FixedTable.Init randPerm nproc rank run ft g).1.TrialSt : ℤ)
      = ((ft.tableLen / nproc * rank : ℕ) : ℤ) := rfl
  have hnw : ¬(0 < (FixedTable.Init randPerm nproc rank run ft g).1.TrialMax ∧
      (FixedTable.Init randPerm nproc rank run ft g).1.TrialMax
        ≤ (FixedTable.Init randPerm nproc rank run ft g).1.TrialCur + 1) := by
    rw [hmax, hcur]
    generalize hq : ft.tableLen / nproc = pt at hpt ⊢
    generalize pt * rank = a
    push_cast
    omega
  rw [step_no_wrap permuteInts _ _ hnw, hcur, hst]
  ring

/-- Helper: the starting value of a foldl max is a lower bound of the fold. -/
theorem foldl_max_init_le (ls : List ℕ) (a : ℕ) : a ≤ ls.foldl max a := by
  induction ls generalizing a with
  | nil => exact Nat.le_refl a
  | cons x xs ih => exact Nat.le_trans (Nat.le_max_left a x) (ih (max a x))

/-- Helper: every member of a list is at most its foldl max. -/
theorem le_foldl_max (ls : List ℕ) : ∀ l a : ℕ, l ∈ ls → l ≤ ls.foldl max a := by
  induction ls with
  | nil => intro l a hl; cases hl
  | cons x xs ih =>
    intro l a hl
    rcases List.mem_cons.mp hl with h | h
    · subst h
      exact Nat.le_trans (Nat.le_max_right a l) (foldl_max_init_le xs (max a l))
    · exact ih l (max a x) h

/-- Helper: slicing the padded packed buffer back at stride m with the
original lengths recovers the original strings, provided every string fits
in m bytes. -/
theorem unpack_packPadded (vs : List (List ℕ)) (m : ℕ) (hm : ∀ s ∈ vs, s.length ≤ m) :
    unpackStrings (packPadded vs m) (vs.map List.length) m = vs := by
  induction vs with
  | nil => rfl
  | cons s rest ih =>
    have hs : s.length ≤ m := hm s (List.mem_cons_self s rest)
    have hrest : ∀ t ∈ rest, t.length ≤ m := fun t ht => hm t (List.mem_cons_of_mem s ht)
    have hlen : (s ++ List.replicate (m - s.length) 0).length = m := by
      simp only [List.length_append, List.length_replicate]
      omega
    have htake : ((s ++ List.replicate (m - s.length) 0) ++ packPadded rest m).take s.length
        = s := by
      rw [List.append_assoc]
      have := List.take_left s (List.replicate (m - s.length) 0 ++ packPadded rest m)
      exact this
    have hdrop : ((s ++ List.replicate (m - s.length) 0) ++ packPadded rest m).drop m
        = packPadded rest m := List.drop_left' hlen
    simp only [packPadded, List.map_cons, unpackStrings]
    rw [htake, hdrop, ih hrest]

/-- C4 counterexample: in the stand-in build the lengths all-gather is a no-op,
so the gathered lengths stay zero, the payload phase is skipped, and dest's
strings are left exactly as they were — for src = ["", "ab"] (bytes
[[], [97,98]]) and dest initially [[120], [121]], the call returns nil and
dest's values remain [[120], [121]], not the reconstruction the claim
requires. -/
theorem gatherTensorRowsString_dummy_cex :
    (GatherTensorRowsString 1 Dummy.AllGather Dummy.AllGather
        ⟨2, 1, [[120], [121]]⟩ ⟨2, 1, [[], [97, 98]]⟩).1.values = [[120], [121]] ∧
    (GatherTensorRowsString 1 Dummy.AllGather Dummy.AllGather
        ⟨2, 1, [[120], [121]]⟩ ⟨2, 1, [[], [97, 98]]⟩).2 = none ∧
    ([[120], [121]] : List (List ℕ)) ≠ [[], [97, 98]] := by
  refine ⟨rfl, rfl, by decide⟩

/-- C4 as amended: when the underlying all-gather actually delivers its
contribution (the §4.2 size == 1 post-condition, AllGatherOne) and the source
holds at least one non-empty string, the two-phase protocol of
GatherTensorRowsString reconstructs every original string exactly — same
lengths, same bytes, no truncation or padding artifacts — with a nil error;
with the stand-in no-op all-gather, dest is left unchanged instead (see the
counterexample). -/
theorem gatherTensorRowsString_roundtrip (dest : StringTensor) (sr cs : ℕ)
    (vs : List (List ℕ)) (h : 0 < maxInts (vs.map List.length)) :
    (GatherTensorRowsString 1 AllGatherOne AllGatherOne dest ⟨sr, cs, vs⟩).1.values = vs ∧
    (GatherTensorRowsString 1 AllGatherOne AllGatherOne dest ⟨sr, cs, vs⟩).2 = none := by
  have hm : ∀ s ∈ vs, s.length ≤ maxInts (vs.map List.length) := fun s hs =>
    le_foldl_max (vs.map List.length) s.length 0 (List.mem_map_of_mem List.length hs)
  have hne : ¬ maxInts (vs.map List.length) = 0 := Nat.pos_iff_ne_zero.mp h
  constructor
  · simp only [GatherTensorRowsString, AllGatherOne, if_neg hne]
    exact unpack_packPadded vs _ hm
  · simp only [GatherTensorRowsString, AllGatherOne, if_neg hne]

/-- Witness for C4's amended theorem at the mixed-length source
["", "hi", "!"] (bytes [[], [104,105], [33]]), which includes an empty string
and a maximum-length string: the single-rank gather with a delivering
all-gather reconstructs all three strings and returns nil. -/
theorem gatherTensorRowsString_roundtrip_witness :
    0 < maxInts (([[], [104, 105], [33]] : List (List ℕ)).map List.length) ∧
    ((GatherTensorRowsString 1 AllGatherOne AllGatherOne ⟨3, 1, [[0], [0], [0]]⟩
        ⟨3, 1, [[], [104, 105], [33]]⟩).1.values = [[], [104, 105], [33]] ∧
      (GatherTensorRowsString 1 AllGatherOne AllGatherOne ⟨3, 1, [[0], [0], [0]]⟩
        ⟨3, 1, [[], [104, 105], [33]]⟩).2 = none) :=
  ⟨by decide, gatherTensorRowsString_roundtrip ⟨3, 1, [[0], [0], [0]]⟩ 3 1
      [[], [104, 105], [33]] (by decide)⟩

end Empi
